import Mathlib

/-!
Verification of the batched-extraction-and-aggregation pipeline of the
RedditBot repository (module `edtech/analysis.py`).

The Python functions are embedded shallowly:
* an `AnalysisResult` models the per-post JSON object returned by the
  extraction service; fields that the aggregator reads with a default
  (`severity_1to5`, `target_audience`, `primary_topic_tags`) are `Option`s,
  `none` standing for an absent key;
* the aggregation loop of `run_openai_analysis` (lines 194-209) becomes a
  left fold `aggregate` over an insertion-ordered association list, mirroring
  the Python dict `buckets`;
* the batching loop (lines 179-185) becomes `pyBatches` over `List.range'`,
  mirroring `range(0, len(all_rows), bs)` and the slice `all_rows[i:i+bs]`;
* the retry decorator and the per-batch try/except become `retryFrom` and
  `extractAll`, the external service being an oracle argument;
* the CSV and Markdown writers become functions returning the list of rows
  or lines they write.
-/

/-- One record of the JSON array returned by the extraction service
(schema `ANALYSIS_SCHEMA` in `analysis.py`).  String and list fields that
the code reads via `.get(k, "")` or `.get(k, [])` are plain `String` or
`List String`, an absent key being the default value; the three fields
whose presence matters to the claims are `Option`s. -/
structure AnalysisResult where
  post_id : String := ""
  subreddit : String := ""
  title : String := ""
  theme : String := ""
  sub_theme : String := ""
  stakeholders : List String := []
  problem_statements : List String := []
  questions_users_ask : List String := []
  proposed_solutions : List String := []
  useful_links : List String := []
  sentiment : String := ""
  severity_1to5 : Option Int := none
  dedupe_key : String := ""
  target_audience : Option String := none
  primary_topic_tags : Option (List String) := none
deriving DecidableEq, Repr

/-- Python `str.lower()`, modelled as character-wise lowercasing by
structural recursion over the character list. -/
def pyLower (s : String) : String :=
  ⟨s.data.map Char.toLower⟩

/-- Python `str.strip()`: drop leading and trailing whitespace, by
structural recursion over the character list. -/
def pyStrip (s : String) : String :=
  ⟨((s.data.dropWhile Char.isWhitespace).reverse.dropWhile
      Char.isWhitespace).reverse⟩

/-- Python slicing `s[:n]` on a string: the first `n` characters. -/
def pyTake (s : String) (n : Nat) : String :=
  ⟨s.data.take n⟩

/-- `(r.get("dedupe_key") or "").lower().strip()` (line 196). -/
def keyOf (r : AnalysisResult) : String :=
  pyStrip (pyLower r.dedupe_key)

/-- `int(r.get("severity_1to5", 3))` (line 203). -/
def sevOf (r : AnalysisResult) : Int :=
  r.severity_1to5.getD 3

/-- `r.get("target_audience", "")` (line 204). -/
def audOf (r : AnalysisResult) : String :=
  r.target_audience.getD ""

/-- `r.get("primary_topic_tags", [])` (line 205). -/
def tagsOf (r : AnalysisResult) : List String :=
  r.primary_topic_tags.getD []

/-- The example entry appended at line 209. -/
def pairOf (r : AnalysisResult) : String × String :=
  (r.subreddit, r.title)

/-- The per-key accumulator dict created by `buckets.setdefault` at
lines 199-200 of `analysis.py`; Python sets become `Finset String`. -/
structure IssueBucket where
  count : Nat
  examples : List (String × String)
  severity_sum : Int
  audiences : Finset String
  links : Finset String
  tags : Finset String
deriving DecidableEq

/-- The fresh accumulator of `buckets.setdefault(key, ...)` (lines 199-200). -/
def emptyBucket : IssueBucket :=
  { count := 0, examples := [], severity_sum := 0
    audiences := ∅, links := ∅, tags := ∅ }

/-- The body of the aggregation loop once the bucket `b` for the key is in
hand (lines 202-209): bump the count, add the severity, add the audience,
union the tags, add each link, and append an example while fewer than 5
are present. -/
def bumpBucket (b : IssueBucket) (r : AnalysisResult) : IssueBucket :=
  { count := b.count + 1
    severity_sum := b.severity_sum + sevOf r
    audiences := insert (audOf r) b.audiences
    tags := b.tags ∪ (tagsOf r).toFinset
    links := (r.useful_links).foldl (fun s u => insert u s) b.links
    examples :=
      if b.examples.length < 5 then b.examples ++ [pairOf r] else b.examples }

/-- `buckets.setdefault(key, ...)` followed by the in-place update, on an
insertion-ordered association list standing for the Python dict. -/
def updBuckets (m : List (String × IssueBucket)) (k : String)
    (r : AnalysisResult) : List (String × IssueBucket) :=
  match m with
  | [] => [(k, bumpBucket emptyBucket r)]
  | (k', b) :: rest =>
      if k' = k then (k', bumpBucket b r) :: rest
      else (k', b) :: updBuckets rest k r

/-- One iteration of the aggregation loop (lines 195-209): compute the
lowercased, trimmed key and skip the record when it is empty. -/
def addResult (m : List (String × IssueBucket)) (r : AnalysisResult) :
    List (String × IssueBucket) :=
  if keyOf r = "" then m else updBuckets m (keyOf r) r

/-- The whole aggregation loop `for r in analyses: ...` (lines 194-209). -/
def aggregate (l : List AnalysisResult) : List (String × IssueBucket) :=
  l.foldl addResult []

/-- Dict lookup on the association list. -/
def lookupB (m : List (String × IssueBucket)) (k : String) :
    Option IssueBucket :=
  match m with
  | [] => none
  | (k', b) :: rest => if k' = k then some b else lookupB rest k

/-- The records that land in the bucket keyed `k`. -/
def contrib (l : List AnalysisResult) (k : String) : List AnalysisResult :=
  l.filter (fun r => keyOf r = k)

/-- The bucket the aggregation loop builds for key `k` from its
contributing records, stated directly in terms of list operations. -/
def specBucket (c : List AnalysisResult) : IssueBucket :=
  { count := c.length
    severity_sum := (c.map sevOf).sum
    audiences := (c.map audOf).toFinset
    tags := (c.flatMap tagsOf).toFinset
    links := (c.flatMap (fun r => r.useful_links)).toFinset
    examples := (c.map pairOf).take 5 }

/-- Round half to even, on exact rationals.  Models the behaviour of the
Python built-in `round` on the exactly representable values that occur in
the claims (floats are modelled as exact rationals). -/
def roundHalfEven (x : ℚ) : Int :=
  let f : Int := ⌊x⌋
  if x - f < 1 / 2 then f
  else if 1 / 2 < x - f then f + 1
  else if Even f then f else f + 1

/-- `round(v, 2)` (line 219). -/
def round2 (x : ℚ) : ℚ :=
  (roundHalfEven (x * 100) : ℚ) / 100

/-- One row of `<prefix>_issues_aggregated.csv` (lines 216-226), with the
numeric cells kept at their values rather than their decimal rendering. -/
structure AggRow where
  issue_key : String
  posts : Nat
  avg_severity : ℚ
  audiences : String
  top_tags : String
  example_titles : String
  links_count : Nat
deriving DecidableEq

/-- The row written for bucket `(k, b)` at lines 219-226. -/
def aggRow (k : String) (b : IssueBucket) : AggRow :=
  { issue_key := k
    posts := b.count
    avg_severity := round2 ((b.severity_sum : ℚ) / (b.count : ℚ))
    audiences :=
      String.intercalate "; "
        (Finset.sort (· ≤ ·) (b.audiences.filter (fun a => a ≠ "")))
    top_tags := pyTake (String.intercalate "; " (Finset.sort (· ≤ ·) b.tags)) 300
    example_titles :=
      pyTake (String.intercalate "; " (b.examples.map Prod.snd)) 300
    links_count := b.links.card }

/-- Insert an entry into a list already sorted by descending count,
placing it after every entry whose count is at least as large. -/
def insertByCount (x : String × IssueBucket) :
    List (String × IssueBucket) → List (String × IssueBucket)
  | [] => [x]
  | y :: ys =>
      if x.2.count ≤ y.2.count then y :: insertByCount x ys else x :: y :: ys

/-- `sorted(buckets.items(), key=..., reverse=True)` (line 218). -/
def sortByCountDesc (m : List (String × IssueBucket)) :
    List (String × IssueBucket) :=
  m.foldr insertByCount []

/-- The data rows of `<prefix>_issues_aggregated.csv` (lines 218-226). -/
def aggCsv (l : List AnalysisResult) : List AggRow :=
  (sortByCountDesc (aggregate l)).map (fun kb => aggRow kb.1 kb.2)

/-- The local helper `join` of `_flatten_for_row` (lines 123-125): drop
whitespace-only entries, replace newlines by spaces, trim, and join with
the separator. -/
def joinCells (sep : String) (arr : List String) : String :=
  String.intercalate sep
    ((arr.filter (fun x => pyStrip x ≠ "")).map
      (fun x => pyStrip (x.replace "\n" " ")))

/-- The flat dict returned by `_flatten_for_row` (lines 127-141). -/
structure FlatRow where
  post_id : String
  subreddit : String
  title : String
  theme : String
  sub_theme : String
  stakeholders : String
  problem_statements : String
  questions_users_ask : String
  proposed_solutions : String
  useful_links : String
  sentiment : String
  severity_1to5 : String
  dedupe_key : String
deriving DecidableEq

/-- `_flatten_for_row` (lines 122-141). -/
def _flatten_for_row (a : AnalysisResult) : FlatRow :=
  { post_id := a.post_id
    subreddit := a.subreddit
    title := pyStrip (a.title.replace "\n" " ")
    theme := a.theme
    sub_theme := a.sub_theme
    stakeholders := joinCells "; " a.stakeholders
    problem_statements := joinCells " | " a.problem_statements
    questions_users_ask := joinCells " | " a.questions_users_ask
    proposed_solutions := joinCells " | " a.proposed_solutions
    useful_links := joinCells " " a.useful_links
    sentiment := a.sentiment
    severity_1to5 :=
      match a.severity_1to5 with
      | some n => toString n
      | none => ""
    dedupe_key := a.dedupe_key }

/-- The key order of the dict built by `_flatten_for_row`, which becomes
the CSV header when at least one row exists (line 154). -/
def perPostFieldnames : List String :=
  ["post_id", "subreddit", "title", "theme", "sub_theme", "stakeholders",
   "problem_statements", "questions_users_ask", "proposed_solutions",
   "useful_links", "sentiment", "severity_1to5", "dedupe_key"]

/-- The fallback key set used when there are no rows (lines 149-153). -/
def fallbackFieldnames : List String :=
  ["post_id", "subreddit", "title", "sentiment", "severity_1to5",
   "target_audience", "primary_topic_tags", "problem_statements",
   "questions_users_ask", "proposed_solutions", "useful_links", "dedupe_key"]

/-- The cells of a flat row in `perPostFieldnames` order, as the
`csv.DictWriter` emits them. -/
def rowCells (fr : FlatRow) : List String :=
  [fr.post_id, fr.subreddit, fr.title, fr.theme, fr.sub_theme,
   fr.stakeholders, fr.problem_statements, fr.questions_users_ask,
   fr.proposed_solutions, fr.useful_links, fr.sentiment, fr.severity_1to5,
   fr.dedupe_key]

/-- `_write_per_post_csv` (lines 144-159), as the list of rows written to
the file, header first.  When `analyses` is empty the Python code replaces
the empty row list by one placeholder dict with every value `""`, takes the
header from it, and then still writes that placeholder as a row. -/
def _write_per_post_csv (analyses : List AnalysisResult) :
    List (List String) :=
  match analyses.map _flatten_for_row with
  | [] => fallbackFieldnames :: [fallbackFieldnames.map (fun _ => "")]
  | r :: rs => perPostFieldnames :: (r :: rs).map rowCells

/-- The header list of `_write_per_post_md` (lines 163-165). -/
def mdHeaders : List String :=
  ["post_id", "subreddit", "title", "sentiment", "severity_1to5",
   "target_audience", "primary_topic_tags", "problem_statements",
   "questions_users_ask", "proposed_solutions", "useful_links", "dedupe_key"]

/-- `r.get(h, "")` on the flat dict, for the headers the Markdown writer
uses; the two headers absent from the dict yield `""`. -/
def mdGet (fr : FlatRow) (h : String) : String :=
  if h = "post_id" then fr.post_id
  else if h = "subreddit" then fr.subreddit
  else if h = "title" then fr.title
  else if h = "theme" then fr.theme
  else if h = "sub_theme" then fr.sub_theme
  else if h = "stakeholders" then fr.stakeholders
  else if h = "problem_statements" then fr.problem_statements
  else if h = "questions_users_ask" then fr.questions_users_ask
  else if h = "proposed_solutions" then fr.proposed_solutions
  else if h = "useful_links" then fr.useful_links
  else if h = "sentiment" then fr.sentiment
  else if h = "severity_1to5" then fr.severity_1to5
  else if h = "dedupe_key" then fr.dedupe_key
  else ""

/-- `esc` (lines 166-167). -/
def escMd (x : String) : String :=
  x.replace "|" "\\|"

/-- The header line written at line 169. -/
def mdHeaderLine : String :=
  "| " ++ String.intercalate " | " mdHeaders ++ " |"

/-- The separator line written at line 170. -/
def mdSepLine : String :=
  "|" ++ String.intercalate "|" (mdHeaders.map (fun _ => "---")) ++ "|"

/-- `_write_per_post_md` (lines 161-172), as the list of lines written. -/
def _write_per_post_md (analyses : List AnalysisResult) (top_n : Int) :
    List String :=
  let rows := (analyses.map _flatten_for_row).take (max 1 top_n).toNat
  mdHeaderLine :: mdSepLine ::
    rows.map (fun r =>
      "| " ++ String.intercalate " | " (mdHeaders.map (fun h => escMd (mdGet r h))) ++ " |")

/-- `bs = max(1, int(args.batch_size))` (line 177). -/
def effBs (z : Int) : Nat :=
  (max 1 z).toNat

/-- The slices produced by `for i in range(0, len(all_rows), bs)` with
`batch = all_rows[i:i+bs]` (lines 179-180), for step `bs`: Python
`range(0, L, bs)` has `(L + bs - 1) / bs` elements when `bs >= 1`. -/
def pyBatches (bs : Nat) (l : List α) : List (List α) :=
  (List.range' 0 ((l.length + bs - 1) / bs) bs).map
    (fun i => (l.drop i).take bs)

/-- Helper recursion computing the same slices head-first; total for every
step because the step used is `max 1 bs`. -/
def chunks (bs : Nat) (l : List α) : List (List α) :=
  match l with
  | [] => []
  | x :: xs =>
      (x :: xs).take (max 1 bs) :: chunks bs ((x :: xs).drop (max 1 bs))
termination_by l.length
decreasing_by
  simp only [List.length_drop]
  have hbs : 1 ≤ max 1 bs := le_max_left 1 bs
  simp only [List.length_cons]
  omega

/-- Modelled from the spec: the `tenacity` retry decorator on
`analyze_batch_with_openai` (line 96), which is not part of this
repository.  `f n` is the outcome of attempt number `n`; `retryFrom f n r`
makes attempt `n` and up to `r` further attempts, returning the first
success or the error of the last attempt. -/
def retryFrom (f : Nat → Except String α) : Nat → Nat → Except String α
  | n, 0 => f n
  | n, rem + 1 =>
      match f n with
      | Except.ok a => Except.ok a
      | Except.error _ => retryFrom f (n + 1) rem

/-- `analyze_batch_with_openai` (lines 96-120) under its
`stop_after_attempt(6)` decorator: attempt 1 plus at most 5 retries of the
service call for one batch. -/
def analyze_batch_with_openai (svc : Nat → Except String (List AnalysisResult)) :
    Except String (List AnalysisResult) :=
  retryFrom svc 1 5

/-- Modelled from the spec: the wait of `tenacity.wait_exponential`
with multiplier 1, minimum 1 and maximum 20 before retrying after failed
attempt `n` — initial delay 1 time unit, doubling, capped at 20. -/
def backoffWait (n : Nat) : ℚ :=
  min 20 (max 1 (2 ^ (n - 1)))

/-- The loop indices `range(0, L, bs)` of line 179. -/
def batchStarts (z : Int) (L : Nat) : List Nat :=
  List.range' 0 ((L + effBs z - 1) / effBs z) (effBs z)

/-- The extraction loop of `run_openai_analysis` (lines 177-185): for each
batch, call the retried service; on success extend `analyses`, on final
failure append a log entry naming the range `i` to `i+bs` and the error.
`svc i batch n` is the outcome of attempt `n` of the service call for the
batch starting at index `i`. -/
def stepExtract (z : Int) (rows : List α)
    (svc : Nat → List α → Nat → Except String (List AnalysisResult))
    (acc : List AnalysisResult × List (Nat × Nat × String)) (i : Nat) :
    List AnalysisResult × List (Nat × Nat × String) :=
  match analyze_batch_with_openai (svc i ((rows.drop i).take (effBs z))) with
  | Except.ok results => (acc.1 ++ results, acc.2)
  | Except.error e => (acc.1, acc.2 ++ [(i, i + effBs z, e)])

/-- The whole extraction loop: fold `stepExtract` over the loop indices,
starting from empty `analyses` and an empty error log. -/
def extractAll (z : Int) (rows : List α)
    (svc : Nat → List α → Nat → Except String (List AnalysisResult)) :
    List AnalysisResult × List (Nat × Nat × String) :=
  (batchStarts z rows.length).foldl (stepExtract z rows svc) ([], [])

/-- The retried outcome of the service call for the batch starting at
index `i`. -/
def batchOutcome (z : Int) (rows : List α)
    (svc : Nat → List α → Nat → Except String (List AnalysisResult))
    (i : Nat) : Except String (List AnalysisResult) :=
  analyze_batch_with_openai (svc i ((rows.drop i).take (effBs z)))

/-- What the batch starting at index `i` contributes to the accumulated
analyses: its results on success, nothing when every attempt failed. -/
def batchContrib (z : Int) (rows : List α)
    (svc : Nat → List α → Nat → Except String (List AnalysisResult))
    (i : Nat) : List AnalysisResult :=
  ((batchOutcome z rows svc i).toOption).getD []

/-- The error-log entry of the batch starting at index `i`, if any. -/
def batchErr (z : Int) (rows : List α)
    (svc : Nat → List α → Nat → Except String (List AnalysisResult))
    (i : Nat) : Option (Nat × Nat × String) :=
  match batchOutcome z rows svc i with
  | Except.ok _ => none
  | Except.error e => some (i, i + effBs z, e)

/-- Everything `run_openai_analysis` (lines 175-257) computes and writes,
bundled: the accumulated analyses, the per-batch failure log, the bucket
map, the aggregated CSV rows, the per-post CSV rows, and the optional
per-post Markdown lines (present when the table selector is md or both). -/
structure RunOutput where
  analyses : List AnalysisResult
  errorLog : List (Nat × Nat × String)
  buckets : List (String × IssueBucket)
  aggRows : List AggRow
  perPost : List (List String)
  perPostMd : Option (List String)
deriving DecidableEq

/-- `run_openai_analysis` (lines 175-257) with the two external service
calls abstracted as the oracle `svc` (the best-effort summary call writes
no structured data and is omitted). -/
def run_openai_analysis (z : Int) (all_rows : List α)
    (svc : Nat → List α → Nat → Except String (List AnalysisResult))
    (table_md : Bool) (md_top : Int) : RunOutput :=
  let ex := extractAll z all_rows svc
  { analyses := ex.1
    errorLog := ex.2
    buckets := aggregate ex.1
    aggRows := aggCsv ex.1
    perPost := _write_per_post_csv ex.1
    perPostMd := if table_md then some (_write_per_post_md ex.1 md_top) else none }

/-- The order-insensitive statistics of a bucket: count, severity sum,
audiences, tags and links (everything except the examples list). -/
def statsOf (b : IssueBucket) :
    Nat × Int × Finset String × Finset String × Finset String :=
  (b.count, b.severity_sum, b.audiences, b.tags, b.links)

/-! ### Concrete records and oracles used to instantiate the theorems -/

/-- Severity-1 record with dedupe key `k`. -/
def wSev1 : AnalysisResult :=
  { subreddit := "s1", title := "t1", dedupe_key := "k",
    severity_1to5 := some 1 }

/-- Severity-3 record with dedupe key `k`. -/
def wSev3 : AnalysisResult :=
  { subreddit := "s2", title := "t2", dedupe_key := "k",
    severity_1to5 := some 3 }

/-- Severity-5 record with dedupe key `k`. -/
def wSev5 : AnalysisResult :=
  { subreddit := "s3", title := "t3", dedupe_key := "k",
    severity_1to5 := some 5 }

/-- A record whose (subreddit, title) pair repeats when listed twice. -/
def wDup : AnalysisResult :=
  { subreddit := "a", title := "t", dedupe_key := "k" }

/-- An oracle whose batch at index 0 fails on every attempt and whose
other batches succeed with no results. -/
def wSvcFail : Nat → List Nat → Nat → Except String (List AnalysisResult) :=
  fun i _ _ => if i = 0 then Except.error "boom" else Except.ok []

/-- The same oracle with the batch at index 0 succeeding instead. -/
def wSvcOk : Nat → List Nat → Nat → Except String (List AnalysisResult) :=
  fun i b n => if i = 0 then Except.ok [wSev1] else wSvcFail i b n

/-! ### Association-list lemmas for the bucket dict -/

theorem lookupB_updBuckets_self (m : List (String × IssueBucket)) (k : String)
    (r : AnalysisResult) :
    lookupB (updBuckets m k r) k =
      some (bumpBucket ((lookupB m k).getD emptyBucket) r) := by
  induction m with
  | nil => simp [updBuckets, lookupB]
  | cons hd tl ih =>
      obtain ⟨k', b⟩ := hd
      by_cases h : k' = k
      · simp [updBuckets, lookupB, h]
      · simp [updBuckets, lookupB, h, ih]

theorem lookupB_updBuckets_ne (m : List (String × IssueBucket)) (k : String)
    (r : AnalysisResult) (k2 : String) (h : k2 ≠ k) :
    lookupB (updBuckets m k r) k2 = lookupB m k2 := by
  induction m with
  | nil =>
      have hne : ¬ k = k2 := fun hh => h hh.symm
      simp [updBuckets, lookupB, hne]
  | cons hd tl ih =>
      obtain ⟨k', b⟩ := hd
      have hne : ¬ k = k2 := fun hh => h hh.symm
      by_cases hk : k' = k
      · simp [updBuckets, lookupB, hk, hne]
      · by_cases hk2 : k' = k2
        · simp [updBuckets, lookupB, hk, hk2, h]
        · simp [updBuckets, lookupB, hk, hk2, ih]

theorem aggregate_concat (l : List AnalysisResult) (r : AnalysisResult) :
    aggregate (l ++ [r]) = addResult (aggregate l) r := by
  simp [aggregate, List.foldl_append]

theorem contrib_concat (l : List AnalysisResult) (r : AnalysisResult)
    (k : String) :
    contrib (l ++ [r]) k =
      contrib l k ++ (if keyOf r = k then [r] else []) := by
  simp only [contrib, List.filter_append]
  congr 1
  by_cases h : keyOf r = k <;> simp [h]

theorem foldl_insert_finset (xs : List String) (s : Finset String) :
    xs.foldl (fun t u => insert u t) s = s ∪ xs.toFinset := by
  induction xs generalizing s with
  | nil => simp
  | cons x xs ih =>
      simp only [List.foldl_cons, ih, List.toFinset_cons]
      ext a
      simp only [Finset.mem_union, Finset.mem_insert, List.mem_toFinset]
      tauto

theorem specBucket_nil : specBucket [] = emptyBucket := by
  simp [specBucket, emptyBucket]

theorem specBucket_concat (c : List AnalysisResult) (r : AnalysisResult) :
    specBucket (c ++ [r]) = bumpBucket (specBucket c) r := by
  have hex : (List.map pairOf (c ++ [r])).take 5 =
      if ((List.map pairOf c).take 5).length < 5
      then (List.map pairOf c).take 5 ++ [pairOf r]
      else (List.map pairOf c).take 5 := by
    rw [List.map_append]
    by_cases h : c.length < 5
    · rw [if_pos (by simp only [List.length_take, List.length_map]; omega),
        List.take_of_length_le (by simp; omega),
        List.take_of_length_le (by simp; omega)]
      simp
    · rw [if_neg (by simp only [List.length_take, List.length_map]; omega),
        List.take_append_of_le_length (by simp; omega)]
  have haud : (List.map audOf (c ++ [r])).toFinset =
      insert (audOf r) (List.map audOf c).toFinset := by
    rw [List.map_append, List.toFinset_append, Finset.insert_eq,
      Finset.union_comm]
    simp
  have htags : ((c ++ [r]).flatMap tagsOf).toFinset =
      (c.flatMap tagsOf).toFinset ∪ (tagsOf r).toFinset := by
    simp [List.flatMap_append]
  have hlinks : ((c ++ [r]).flatMap (fun x => x.useful_links)).toFinset =
      (c.flatMap (fun x => x.useful_links)).toFinset ∪
        (r.useful_links).toFinset := by
    simp [List.flatMap_append]
  simp only [specBucket, bumpBucket, IssueBucket.mk.injEq,
    foldl_insert_finset]
  refine ⟨by simp, hex, by simp, haud, hlinks, htags⟩

/-- Characterization of the bucket dict after the whole aggregation loop:
key `k` is bound exactly when it is non-empty and some record maps to it,
and then its bucket is `specBucket` of the contributing records in input
order. -/
theorem lookupB_aggregate (l : List AnalysisResult) (k : String) :
    lookupB (aggregate l) k =
      if k ≠ "" ∧ contrib l k ≠ [] then some (specBucket (contrib l k))
      else none := by
  induction l using List.reverseRecOn with
  | nil => simp [aggregate, lookupB, contrib]
  | append_singleton l r ih =>
      rw [aggregate_concat, contrib_concat]
      by_cases hr : keyOf r = ""
      · rw [addResult, if_pos hr]
        by_cases hrk : keyOf r = k
        · have hk : k = "" := hrk.symm.trans hr
          subst hk
          simp [ih]
        · simp [hrk, ih]
      · rw [addResult, if_neg hr]
        by_cases hrk : keyOf r = k
        · subst hrk
          rw [lookupB_updBuckets_self, ih, if_pos rfl]
          by_cases hc : contrib l (keyOf r) = []
          · simp only [hc, List.nil_append]
            rw [if_neg (by simp), if_pos (by simp [hr])]
            have : specBucket [r] = bumpBucket emptyBucket r := by
              rw [← specBucket_nil, ← specBucket_concat, List.nil_append]
            simp [this]
          · rw [if_pos ⟨hr, hc⟩, if_pos ⟨hr, by simp⟩]
            simp [specBucket_concat]
        · rw [lookupB_updBuckets_ne _ _ _ _ (fun h => hrk h.symm)]
          simp [hrk, ih]

theorem lookupB_eq_none_iff (m : List (String × IssueBucket)) (k : String) :
    lookupB m k = none ↔ k ∉ m.map Prod.fst := by
  induction m with
  | nil => simp [lookupB]
  | cons hd tl ih =>
      obtain ⟨k', b⟩ := hd
      simp only [lookupB, List.map_cons, List.mem_cons]
      by_cases h : k' = k
      · simp [h]
      · rw [if_neg h, ih]
        constructor
        · intro hnot hmem
          rcases hmem with heq | hmem
          · exact h heq.symm
          · exact hnot hmem
        · intro hnot hmem
          exact hnot (Or.inr hmem)

theorem map_fst_updBuckets (m : List (String × IssueBucket)) (k : String)
    (r : AnalysisResult) :
    (updBuckets m k r).map Prod.fst =
      if k ∈ m.map Prod.fst then m.map Prod.fst
      else m.map Prod.fst ++ [k] := by
  induction m with
  | nil => simp [updBuckets]
  | cons hd tl ih =>
      obtain ⟨k', b⟩ := hd
      by_cases h : k' = k
      · subst h
        simp [updBuckets]
      · have hne : ¬ k = k' := fun hh => h hh.symm
        simp only [updBuckets, if_neg h, List.map_cons, List.mem_cons, ih]
        by_cases hm : k ∈ tl.map Prod.fst
        · simp [hm, hne]
        · simp [hm, hne]

theorem nodup_keys_aggregate (l : List AnalysisResult) :
    ((aggregate l).map Prod.fst).Nodup := by
  induction l using List.reverseRecOn with
  | nil => simp [aggregate]
  | append_singleton l r ih =>
      rw [aggregate_concat, addResult]
      by_cases hr : keyOf r = ""
      · simpa [hr] using ih
      · rw [if_neg hr, map_fst_updBuckets]
        by_cases hm : keyOf r ∈ (aggregate l).map Prod.fst
        · simpa [hm] using ih
        · rw [if_neg hm]
          simp [List.nodup_append, ih, hm]

theorem mem_iff_lookupB (m : List (String × IssueBucket))
    (hnd : (m.map Prod.fst).Nodup) (k : String) (b : IssueBucket) :
    (k, b) ∈ m ↔ lookupB m k = some b := by
  induction m with
  | nil => simp [lookupB]
  | cons hd tl ih =>
      obtain ⟨k', b'⟩ := hd
      simp only [List.map_cons, List.nodup_cons] at hnd
      by_cases h : k' = k
      · subst h
        constructor
        · intro hmem
          rcases List.mem_cons.mp hmem with heq | hmem
          · have hb : b = b' := congrArg Prod.snd heq
            simp [lookupB, hb]
          · exact absurd (List.mem_map_of_mem Prod.fst hmem) hnd.1
        · intro hlk
          simp only [lookupB, if_pos rfl] at hlk
          have hb : b' = b := Option.some.inj hlk
          subst hb
          exact List.mem_cons_self _ _
      · constructor
        · intro hmem
          rcases List.mem_cons.mp hmem with heq | hmem
          · exact absurd (congrArg Prod.fst heq).symm h
          · simp only [lookupB, if_neg h]
            exact (ih hnd.2).mp hmem
        · intro hlk
          simp only [lookupB, if_neg h] at hlk
          exact List.mem_cons_of_mem _ ((ih hnd.2).mpr hlk)

theorem aggregate_filter_nonempty (l : List AnalysisResult) :
    aggregate (l.filter (fun r => keyOf r ≠ "")) = aggregate l := by
  induction l using List.reverseRecOn with
  | nil => rfl
  | append_singleton l r ih =>
      rw [List.filter_append, aggregate_concat]
      by_cases hr : keyOf r = ""
      · simp only [addResult, if_pos hr, List.filter_cons]
        simpa [hr] using ih
      · have : List.filter (fun r => decide (keyOf r ≠ "")) [r] = [r] := by
          simp [hr]
        rw [this, aggregate_concat, ih]

/-! ### The descending stable sort used for the aggregated CSV -/

theorem insertByCount_perm (x : String × IssueBucket)
    (m : List (String × IssueBucket)) :
    (insertByCount x m).Perm (x :: m) := by
  induction m with
  | nil => simp [insertByCount]
  | cons y ys ih =>
      simp only [insertByCount]
      by_cases h : x.2.count ≤ y.2.count
      · rw [if_pos h]
        exact (List.Perm.cons y ih).trans (List.Perm.swap x y ys)
      · rw [if_neg h]

theorem sortByCountDesc_perm (m : List (String × IssueBucket)) :
    (sortByCountDesc m).Perm m := by
  induction m with
  | nil => simp [sortByCountDesc]
  | cons y ys ih =>
      simp only [sortByCountDesc, List.foldr_cons]
      exact (insertByCount_perm y _).trans (ih.cons y)

theorem mem_aggCsv (l : List AnalysisResult) (row : AggRow)
    (hrow : row ∈ aggCsv l) :
    ∃ k b, lookupB (aggregate l) k = some b ∧ row = aggRow k b := by
  obtain ⟨kb, hkb, hre⟩ := List.mem_map.mp hrow
  have hmem : kb ∈ aggregate l := (sortByCountDesc_perm (aggregate l)).mem_iff.mp hkb
  obtain ⟨k, b⟩ := kb
  exact ⟨k, b, (mem_iff_lookupB (aggregate l) (nodup_keys_aggregate l) k b).mp hmem,
    hre.symm⟩

/-! ### Batching lemmas -/

theorem chunks_nil (bs : Nat) : chunks bs ([] : List α) = [] := by
  rw [chunks]

theorem chunks_cons (bs : Nat) (x : α) (xs : List α) :
    chunks bs (x :: xs) =
      (x :: xs).take (max 1 bs) :: chunks bs ((x :: xs).drop (max 1 bs)) := by
  rw [chunks]

theorem pyBatches_nil (bs : Nat) (hbs : 1 ≤ bs) :
    pyBatches bs ([] : List α) = [] := by
  have h0 : (bs - 1) / bs = 0 := Nat.div_eq_of_lt (by omega)
  simp [pyBatches, h0]

theorem range'_map_shift {β : Type _} (g : Nat → β) (step : Nat) :
    ∀ (m s t : Nat), (List.range' (s + t) m step).map g
      = (List.range' s m step).map (fun i => g (i + t)) := by
  intro m
  induction m with
  | zero => intro s t; rfl
  | succ m ih =>
      intro s t
      simp only [List.range'_succ, List.map_cons]
      rw [show s + t + step = (s + step) + t from by omega, ih (s + step) t]

theorem ceil_div_pos_split (L B : Nat) (hB : 1 ≤ B) (hL : 1 ≤ L) :
    (L + B - 1) / B = (L - B + B - 1) / B + 1 := by
  rcases Nat.le_total B L with h | h
  · rw [show L - B + B - 1 = L - 1 from by omega,
      show L + B - 1 = (L - 1) + B from by omega,
      Nat.add_div_right _ (by omega)]
  · have hr : (L - B + B - 1) / B = 0 := by
      rw [show L - B + B - 1 = B - 1 from by omega]
      exact Nat.div_eq_of_lt (by omega)
    have hl : (L + B - 1) / B = 1 :=
      Nat.div_eq_of_lt_le (by omega) (by omega)
    rw [hr, hl]

theorem pyBatches_cons (bs : Nat) (hbs : 1 ≤ bs) (x : α) (xs : List α) :
    pyBatches bs (x :: xs) =
      (x :: xs).take bs :: pyBatches bs ((x :: xs).drop bs) := by
  have hL : 1 ≤ (x :: xs).length := by simp
  simp only [pyBatches]
  rw [show ((x :: xs).drop bs).length = (x :: xs).length - bs from by simp,
    ceil_div_pos_split (x :: xs).length bs hbs hL, List.range'_succ]
  simp only [List.map_cons, List.drop_zero]
  congr 1
  have hshift := range'_map_shift (fun i => ((x :: xs).drop i).take bs) bs
    (((x :: xs).length - bs + bs - 1) / bs) 0 bs
  rw [hshift]
  refine List.map_congr_left ?_
  intro i _
  simp only [List.drop_drop]
  rw [Nat.add_comm i bs]

theorem pyBatches_eq_chunks (bs : Nat) (hbs : 1 ≤ bs) :
    ∀ (n : Nat) (l : List α), l.length ≤ n → pyBatches bs l = chunks bs l := by
  intro n
  induction n with
  | zero =>
      intro l hl
      have h0 : l = [] := List.length_eq_zero.mp (by omega)
      subst h0
      rw [pyBatches_nil bs hbs, chunks_nil]
  | succ n ih =>
      intro l hl
      cases l with
      | nil => rw [pyBatches_nil bs hbs, chunks_nil]
      | cons x xs =>
          rw [pyBatches_cons bs hbs, chunks_cons, Nat.max_eq_right hbs,
            ih _ (by
              simp only [List.length_cons] at hl
              simp only [List.length_drop, List.length_cons]
              omega)]

theorem chunks_flatten (bs : Nat) (hbs : 1 ≤ bs) :
    ∀ (n : Nat) (l : List α), l.length ≤ n → (chunks bs l).flatten = l := by
  intro n
  induction n with
  | zero =>
      intro l hl
      have h0 : l = [] := List.length_eq_zero.mp (by omega)
      subst h0
      rw [chunks_nil]
      rfl
  | succ n ih =>
      intro l hl
      cases l with
      | nil => rw [chunks_nil]; rfl
      | cons x xs =>
          rw [chunks_cons, Nat.max_eq_right hbs, List.flatten_cons,
            ih _ (by
              simp only [List.length_cons] at hl
              simp only [List.length_drop, List.length_cons]
              omega),
            List.take_append_drop]

theorem chunks_length (bs : Nat) (hbs : 1 ≤ bs) :
    ∀ (n : Nat) (l : List α), l.length ≤ n →
      (chunks bs l).length = (l.length + bs - 1) / bs := by
  intro n
  induction n with
  | zero =>
      intro l hl
      have h0 : l = [] := List.length_eq_zero.mp (by omega)
      subst h0
      rw [chunks_nil]
      simp [Nat.div_eq_of_lt (show bs - 1 < bs by omega)]
  | succ n ih =>
      intro l hl
      cases l with
      | nil =>
          rw [chunks_nil]
          simp [Nat.div_eq_of_lt (show bs - 1 < bs by omega)]
      | cons x xs =>
          rw [chunks_cons, Nat.max_eq_right hbs, List.length_cons,
            ih _ (by
              simp only [List.length_cons] at hl
              simp only [List.length_drop, List.length_cons]
              omega),
            List.length_drop,
            ceil_div_pos_split (x :: xs).length bs hbs (by simp)]

theorem chunks_sizes (bs : Nat) (hbs : 1 ≤ bs) :
    ∀ (n : Nat) (l : List α), l.length ≤ n →
      ∀ c ∈ chunks bs l, c.length ≤ bs := by
  intro n
  induction n with
  | zero =>
      intro l hl
      have h0 : l = [] := List.length_eq_zero.mp (by omega)
      subst h0
      rw [chunks_nil]
      intro c hc
      exact absurd hc (List.not_mem_nil c)
  | succ n ih =>
      intro l hl
      cases l with
      | nil =>
          rw [chunks_nil]
          intro c hc
          exact absurd hc (List.not_mem_nil c)
      | cons x xs =>
          rw [chunks_cons, Nat.max_eq_right hbs]
          intro c hc
          rcases List.mem_cons.mp hc with heq | hmem
          · subst heq
            simp only [List.length_take, List.length_cons]
            omega
          · exact ih _ (by
              simp only [List.length_cons] at hl
              simp only [List.length_drop, List.length_cons]
              omega) c hmem

theorem chunks_eq_nil_iff (bs : Nat) (l : List α) :
    chunks bs l = [] ↔ l = [] := by
  cases l with
  | nil => simp [chunks_nil]
  | cons x xs => simp [chunks_cons]

theorem chunks_full (bs : Nat) (hbs : 1 ≤ bs) :
    ∀ (n : Nat) (l : List α), l.length ≤ n →
      ∀ j, j + 1 < (chunks bs l).length →
        ((chunks bs l).getD j []).length = bs := by
  intro n
  induction n with
  | zero =>
      intro l hl
      have h0 : l = [] := List.length_eq_zero.mp (by omega)
      subst h0
      rw [chunks_nil]
      intro j hj
      simp at hj
  | succ n ih =>
      intro l hl
      cases l with
      | nil =>
          rw [chunks_nil]
          intro j hj
          simp at hj
      | cons x xs =>
          rw [chunks_cons, Nat.max_eq_right hbs]
          intro j hj
          cases j with
          | zero =>
              rw [List.getD_cons_zero]
              simp only [List.length_cons, List.length_take]
              have hne : chunks bs ((x :: xs).drop bs) ≠ [] := by
                intro hcon
                rw [List.length_cons, hcon] at hj
                simp at hj
              have hd : (x :: xs).drop bs ≠ [] :=
                fun hcon => hne (hcon ▸ chunks_nil bs)
              have hlen : bs < xs.length + 1 := by
                by_contra hcon
                exact hd (List.drop_eq_nil_of_le
                  (by simp only [List.length_cons]; omega))
              omega
          | succ j =>
              rw [List.getD_cons_succ]
              refine ih _ (by
                simp only [List.length_cons] at hl
                simp only [List.length_drop, List.length_cons]
                omega) j ?_
              rw [List.length_cons] at hj
              omega

/-! ### Retry and extraction-loop lemmas -/

theorem retryFrom_allFail {α : Type _} (f : Nat → Except String α) :
    ∀ (rem n : Nat),
      (∀ m, n ≤ m → m < n + rem → ∃ e, f m = Except.error e) →
      retryFrom f n rem = f (n + rem) := by
  intro rem
  induction rem with
  | zero => intro n _; simp [retryFrom]
  | succ rem ih =>
      intro n h
      obtain ⟨e, he⟩ := h n (le_refl n) (by omega)
      simp only [retryFrom, he]
      rw [ih (n + 1) (fun m hm1 hm2 => h m (by omega) (by omega))]
      congr 1
      omega

theorem foldl_stepExtract (z : Int) {α : Type _} (rows : List α)
    (svc : Nat → List α → Nat → Except String (List AnalysisResult)) :
    ∀ (starts : List Nat)
      (acc : List AnalysisResult × List (Nat × Nat × String)),
      starts.foldl (stepExtract z rows svc) acc =
        (acc.1 ++ (starts.map (batchContrib z rows svc)).flatten,
         acc.2 ++ starts.filterMap (batchErr z rows svc)) := by
  intro starts
  induction starts with
  | nil => intro acc; simp
  | cons i is ih =>
      intro acc
      simp only [List.foldl_cons, List.map_cons, List.flatten_cons,
        List.filterMap_cons]
      rw [ih]
      cases hout : batchOutcome z rows svc i with
      | ok results =>
          have hstep : stepExtract z rows svc acc i =
              (acc.1 ++ results, acc.2) := by
            simp only [stepExtract]
            rw [show analyze_batch_with_openai
                (svc i ((rows.drop i).take (effBs z))) =
                batchOutcome z rows svc i from rfl, hout]
          have hcontrib : batchContrib z rows svc i = results := by
            simp [batchContrib, hout, Except.toOption]
          have herr : batchErr z rows svc i = none := by
            simp [batchErr, hout]
          rw [hstep, hcontrib, herr]
          simp [List.append_assoc]
      | error e =>
          have hstep : stepExtract z rows svc acc i =
              (acc.1, acc.2 ++ [(i, i + effBs z, e)]) := by
            simp only [stepExtract]
            rw [show analyze_batch_with_openai
                (svc i ((rows.drop i).take (effBs z))) =
                batchOutcome z rows svc i from rfl, hout]
          have hcontrib : batchContrib z rows svc i = [] := by
            simp [batchContrib, hout, Except.toOption]
          have herr : batchErr z rows svc i = some (i, i + effBs z, e) := by
            simp [batchErr, hout]
          rw [hstep, hcontrib, herr]
          simp [List.append_assoc]

theorem extractAll_spec (z : Int) {α : Type _} (rows : List α)
    (svc : Nat → List α → Nat → Except String (List AnalysisResult)) :
    extractAll z rows svc =
      (((batchStarts z rows.length).map (batchContrib z rows svc)).flatten,
       (batchStarts z rows.length).filterMap (batchErr z rows svc)) := by
  rw [extractAll, foldl_stepExtract]
  simp

theorem one_le_effBs (z : Int) : 1 ≤ effBs z := by
  have h : (1 : Int) ≤ max 1 z := le_max_left 1 z
  exact Int.toNat_le_toNat h

theorem extractAll_fst (z : Int) {α : Type _} (rows : List α)
    (svc : Nat → List α → Nat → Except String (List AnalysisResult)) :
    (extractAll z rows svc).1 =
      ((batchStarts z rows.length).map (batchContrib z rows svc)).flatten := by
  rw [extractAll_spec]

theorem extractAll_snd (z : Int) {α : Type _} (rows : List α)
    (svc : Nat → List α → Nat → Except String (List AnalysisResult)) :
    (extractAll z rows svc).2 =
      (batchStarts z rows.length).filterMap (batchErr z rows svc) := by
  rw [extractAll_spec]

/-- Shared helper: the examples list of any bucket the aggregation builds
is the first at most 5 (subreddit, title) pairs of its contributing
records, in encounter order. -/
theorem examples_eq_take5 (l : List AnalysisResult) (k : String)
    (b : IssueBucket) (h : lookupB (aggregate l) k = some b) :
    b.examples = ((contrib l k).map pairOf).take 5 := by
  rw [lookupB_aggregate] at h
  by_cases hcond : k ≠ "" ∧ contrib l k ≠ []
  · rw [if_pos hcond] at h
    have hb : b = specBucket (contrib l k) := (Option.some.inj h).symm
    subst hb
    rfl
  · rw [if_neg hcond] at h
    exact absurd h (by simp)

/-! ### The claims -/

/-- C1: for every batch size B at least 1 and every input sequence of
posts, the batching loop in run_openai_analysis produces ceil(L/B)
contiguous, non-overlapping slices, each of length at most B, with every
slice except possibly the last of length exactly B, whose concatenation in
order equals the original sequence. -/
theorem c1_batching {α : Type _} (B : Nat) (hB : 1 ≤ B) (l : List α) :
    (pyBatches B l).length = (l.length + B - 1) / B
    ∧ (∀ b ∈ pyBatches B l, b.length ≤ B)
    ∧ (∀ j, j + 1 < (pyBatches B l).length →
        ((pyBatches B l).getD j []).length = B)
    ∧ (pyBatches B l).flatten = l := by
  rw [pyBatches_eq_chunks B hB l.length l (le_refl _)]
  exact ⟨chunks_length B hB l.length l (le_refl _),
    chunks_sizes B hB l.length l (le_refl _),
    chunks_full B hB l.length l (le_refl _),
    chunks_flatten B hB l.length l (le_refl _)⟩

theorem c1_batching_witness :
    (pyBatches 2 [10, 20, 30]).length = (([10, 20, 30] : List Nat).length + 2 - 1) / 2
    ∧ (∀ b ∈ pyBatches 2 [10, 20, 30], b.length ≤ 2)
    ∧ (∀ j, j + 1 < (pyBatches 2 ([10, 20, 30] : List Nat)).length →
        ((pyBatches 2 ([10, 20, 30] : List Nat)).getD j []).length = 2)
    ∧ (pyBatches 2 [10, 20, 30]).flatten = [10, 20, 30] :=
  c1_batching 2 (by decide) [10, 20, 30]

/-- C10: for every integer batch_size, including zero and negative values,
run_openai_analysis uses the effective batch size max(1, batch_size), so
the batching loop is well defined, terminates, and covers the input. -/
theorem c10_effective_batch_size (z : Int) {α : Type _} (l : List α) :
    1 ≤ effBs z
    ∧ (z ≤ 0 → effBs z = 1)
    ∧ (pyBatches (effBs z) l).flatten = l
    ∧ batchStarts z l.length =
        List.range' 0 ((l.length + effBs z - 1) / effBs z) (effBs z) := by
  refine ⟨one_le_effBs z, ?_, ?_, rfl⟩
  · intro hz
    have hm : max 1 z = 1 := max_eq_left (by omega)
    simp [effBs, hm]
  · rw [pyBatches_eq_chunks (effBs z) (one_le_effBs z) l.length l (le_refl _)]
    exact chunks_flatten (effBs z) (one_le_effBs z) l.length l (le_refl _)

/-- C9: when the list of analyses is empty, the Markdown per-post writer
produces exactly the header row and the separator row and no data rows. -/
theorem c9_md_empty_header (top_n : Int) :
    _write_per_post_md [] top_n = [mdHeaderLine, mdSepLine] := by
  simp [_write_per_post_md]

/-- C7: the claim says the per-post CSV writer, given no analyses,
produces exactly the header row of the fallback column set and no data
rows; the code in fact also writes the placeholder dict itself, producing
one data row of 12 empty cells after the header (contradicting the
comment at line 148 of analysis.py). -/
theorem c7_csv_empty_extra_row :
    _write_per_post_csv [] =
      [fallbackFieldnames, fallbackFieldnames.map (fun _ => "")]
    ∧ fallbackFieldnames.map (fun _ => "") = List.replicate 12 ""
    ∧ _write_per_post_csv [] ≠ [fallbackFieldnames] := by
  refine ⟨rfl, by decide, by decide⟩

/-- C6 counterexample: the claim says example pairs are distinct; on two
identical records sharing a key the code records the same
(subreddit, title) pair twice. -/
theorem c6_examples_counterexample :
    (lookupB (aggregate [wDup, wDup]) "k").map IssueBucket.examples =
      some [("a", "t"), ("a", "t")]
    ∧ ¬ ([("a", "t"), ("a", "t")] : List (String × String)).Nodup := by
  exact ⟨by decide, by decide⟩

/-- C6 amended: for every bucket, the examples list holds the first up to
5 (subreddit, title) pairs of the contributing results, in encounter
order, duplicates included; nothing is appended once 5 are present. -/
theorem c6_examples_amended (l : List AnalysisResult) (k : String)
    (b : IssueBucket) (h : lookupB (aggregate l) k = some b) :
    b.examples = ((contrib l k).map pairOf).take 5 :=
  examples_eq_take5 l k b h

theorem c6_examples_amended_witness :
    (lookupB (aggregate [wDup, wDup]) "k" = some (specBucket [wDup, wDup]))
    ∧ (specBucket [wDup, wDup]).examples =
        ((contrib [wDup, wDup] "k").map pairOf).take 5 :=
  ⟨by decide,
    c6_examples_amended [wDup, wDup] "k" (specBucket [wDup, wDup]) (by decide)⟩

/-- C2: every record with a non-empty lowercased, trimmed dedupe key lands
in exactly one bucket, the one keyed by that string; records with an empty
or whitespace-only dedupe key appear in no bucket and contribute nothing
to any bucket. -/
theorem c2_bucket_partition (l : List AnalysisResult) :
    aggregate (l.filter (fun r => keyOf r ≠ "")) = aggregate l
    ∧ ((aggregate l).map Prod.fst).Nodup
    ∧ (∀ r ∈ l, keyOf r ≠ "" →
        r ∈ contrib l (keyOf r) ∧
        lookupB (aggregate l) (keyOf r) =
          some (specBucket (contrib l (keyOf r))))
    ∧ (∀ k, k = "" ∨ contrib l k = [] → lookupB (aggregate l) k = none) := by
  refine ⟨aggregate_filter_nonempty l, nodup_keys_aggregate l, ?_, ?_⟩
  · intro r hr hk
    have hmem : r ∈ contrib l (keyOf r) := by
      simp [contrib, List.mem_filter, hr]
    refine ⟨hmem, ?_⟩
    rw [lookupB_aggregate, if_pos ⟨hk, List.ne_nil_of_mem hmem⟩]
  · intro k hk
    rw [lookupB_aggregate]
    rcases hk with hk | hk
    · exact if_neg (fun hcon => hcon.1 hk)
    · exact if_neg (fun hcon => hcon.2 hk)

theorem c2_bucket_partition_witness :
    aggregate ([wSev1, { dedupe_key := "   " }].filter (fun r => keyOf r ≠ ""))
      = aggregate [wSev1, { dedupe_key := "   " }]
    ∧ ((aggregate [wSev1, { dedupe_key := "   " }]).map Prod.fst).Nodup
    ∧ (∀ r ∈ [wSev1, ({ dedupe_key := "   " } : AnalysisResult)], keyOf r ≠ "" →
        r ∈ contrib [wSev1, { dedupe_key := "   " }] (keyOf r) ∧
        lookupB (aggregate [wSev1, { dedupe_key := "   " }]) (keyOf r) =
          some (specBucket (contrib [wSev1, { dedupe_key := "   " }] (keyOf r))))
    ∧ (∀ k, k = "" ∨ contrib [wSev1, { dedupe_key := "   " }] k = [] →
        lookupB (aggregate [wSev1, { dedupe_key := "   " }]) k = none) :=
  c2_bucket_partition [wSev1, { dedupe_key := "   " }]

/-- C5: when every record carries only the fields of the declared
extraction schema (no target_audience, no primary_topic_tags), every
bucket has an empty tag set and an audiences set containing at most the
empty string, so the audiences and top_tags columns of every aggregated
CSV row are empty strings. -/
theorem c5_schema_only_fields (l : List AnalysisResult)
    (hsch : ∀ r ∈ l, r.target_audience = none ∧ r.primary_topic_tags = none) :
    (∀ k b, lookupB (aggregate l) k = some b →
      b.tags = ∅ ∧ ∀ a ∈ b.audiences, a = "")
    ∧ (∀ row ∈ aggCsv l, row.audiences = "" ∧ row.top_tags = "") := by
  have hbucket : ∀ k b, lookupB (aggregate l) k = some b →
      b.tags = ∅ ∧ ∀ a ∈ b.audiences, a = "" := by
    intro k b hb
    rw [lookupB_aggregate] at hb
    by_cases hcond : k ≠ "" ∧ contrib l k ≠ []
    · rw [if_pos hcond] at hb
      have hbe : b = specBucket (contrib l k) := (Option.some.inj hb).symm
      subst hbe
      constructor
      · simp only [specBucket]
        rw [Finset.eq_empty_iff_forall_not_mem]
        intro a ha
        rw [List.mem_toFinset, List.mem_flatMap] at ha
        obtain ⟨r, hr, ha⟩ := ha
        have hrl : r ∈ l := (List.mem_filter.mp hr).1
        simp only [tagsOf] at ha
        rw [(hsch r hrl).2] at ha
        simp at ha
      · intro a ha
        simp only [specBucket, List.mem_toFinset, List.mem_map] at ha
        obtain ⟨r, hr, hra⟩ := ha
        have hrl : r ∈ l := (List.mem_filter.mp hr).1
        rw [← hra]
        simp only [audOf]
        rw [(hsch r hrl).1]
        rfl
    · rw [if_neg hcond] at hb
      exact absurd hb (by simp)
  refine ⟨hbucket, ?_⟩
  intro row hrow
  obtain ⟨k, b, hkb, hre⟩ := mem_aggCsv l row hrow
  obtain ⟨htags, haud⟩ := hbucket k b hkb
  subst hre
  constructor
  · have hfil : b.audiences.filter (fun a => a ≠ "") = ∅ := by
      rw [Finset.eq_empty_iff_forall_not_mem]
      intro a ha
      obtain ⟨hmem, hne⟩ := Finset.mem_filter.mp ha
      exact hne (haud a hmem)
    have hemp : String.intercalate "; " ([] : List String) = "" := by decide
    simp [aggRow, hfil, Finset.sort_empty, hemp]
  · have hemp : pyTake (String.intercalate "; " ([] : List String)) 300 = "" := by
      decide
    simp [aggRow, htags, Finset.sort_empty, hemp]

theorem c5_schema_only_fields_witness :
    (∀ r ∈ [wSev1, wSev3], r.target_audience = none ∧ r.primary_topic_tags = none)
    ∧ ((∀ k b, lookupB (aggregate [wSev1, wSev3]) k = some b →
        b.tags = ∅ ∧ ∀ a ∈ b.audiences, a = "")
      ∧ (∀ row ∈ aggCsv [wSev1, wSev3], row.audiences = "" ∧ row.top_tags = "")) :=
  ⟨by decide, c5_schema_only_fields [wSev1, wSev3] (by decide)⟩

/-- C4: every aggregated CSV row carries as avg_severity the sum of the
severities of the contributing results (a missing severity counting as 3)
divided by the count, rounded to 2 decimal places; in particular three
results sharing a key with severities 1, 3 and 5 give a bucket with
severity sum 9 and count 3, whose written average is round2 (9/3) = 3. -/
theorem c4_avg_severity :
    (∀ (l : List AnalysisResult) (row : AggRow), row ∈ aggCsv l →
      row.avg_severity =
        round2 (((((contrib l row.issue_key).map sevOf).sum : Int) : ℚ) /
          (((contrib l row.issue_key).length : Nat) : ℚ)))
    ∧ (lookupB (aggregate [wSev1, wSev3, wSev5]) "k").map
        (fun b => (b.severity_sum, b.count)) = some (9, 3)
    ∧ round2 ((9 : ℚ) / (3 : ℚ)) = 3 := by
  refine ⟨?_, by decide, ?_⟩
  · intro l row hrow
    obtain ⟨k, b, hkb, hre⟩ := mem_aggCsv l row hrow
    subst hre
    rw [lookupB_aggregate] at hkb
    by_cases hcond : k ≠ "" ∧ contrib l k ≠ []
    · rw [if_pos hcond] at hkb
      have hbe : b = specBucket (contrib l k) := (Option.some.inj hkb).symm
      subst hbe
      simp [aggRow, specBucket]
    · rw [if_neg hcond] at hkb
      exact absurd hkb (by simp)
  · have h93 : (9 : ℚ) / 3 = 3 := by norm_num
    rw [h93]
    have h300 : roundHalfEven ((3 : ℚ) * 100) = 300 := by
      have he : (3 : ℚ) * 100 = ((300 : Int) : ℚ) := by norm_num
      rw [he]
      simp only [roundHalfEven, Int.floor_intCast]
      norm_num
    rw [round2, h300]
    norm_num

/-- C8: aggregation is invariant under permutation of the input records
for the bucket keys, counts, severity sums (hence averages), audience,
tag and link sets; only the examples lists depend on the order, and each
is always the first at most 5 contributing pairs in its own input
order. -/
theorem c8_perm_invariance (l l' : List AnalysisResult) (hp : l.Perm l') :
    ((aggregate l).map Prod.fst).toFinset =
      ((aggregate l').map Prod.fst).toFinset
    ∧ (∀ k, (lookupB (aggregate l) k).map statsOf =
        (lookupB (aggregate l') k).map statsOf)
    ∧ (∀ k b, lookupB (aggregate l) k = some b →
        b.examples = ((contrib l k).map pairOf).take 5)
    ∧ (∀ k b, lookupB (aggregate l') k = some b →
        b.examples = ((contrib l' k).map pairOf).take 5) := by
  have hstats : ∀ k, (lookupB (aggregate l) k).map statsOf =
      (lookupB (aggregate l') k).map statsOf := by
    intro k
    rw [lookupB_aggregate, lookupB_aggregate]
    have hc : (contrib l k).Perm (contrib l' k) := hp.filter _
    by_cases hk : k = ""
    · simp [hk]
    · by_cases hnil : contrib l k = []
      · have hnil' : contrib l' k = [] := by
          have hlen := hc.length_eq
          rw [hnil] at hlen
          exact List.length_eq_zero.mp hlen.symm
        rw [if_neg (fun hcon => hcon.2 hnil),
          if_neg (fun hcon => hcon.2 hnil')]
      · have hnil' : contrib l' k ≠ [] := by
          intro hcon
          have hlen := hc.length_eq
          rw [hcon] at hlen
          exact hnil (List.length_eq_zero.mp hlen)
        rw [if_pos ⟨hk, hnil⟩, if_pos ⟨hk, hnil'⟩]
        simp only [Option.map_some']
        congr 1
        simp only [statsOf, specBucket, Prod.mk.injEq]
        refine ⟨hc.length_eq, (hc.map sevOf).sum_eq,
          List.toFinset_eq_of_perm _ _ (hc.map audOf),
          List.toFinset_eq_of_perm _ _ (hc.flatMap_right tagsOf),
          List.toFinset_eq_of_perm _ _ (hc.flatMap_right _)⟩
  have hnone : ∀ k,
      (lookupB (aggregate l) k = none ↔ lookupB (aggregate l') k = none) := by
    intro k
    constructor
    · intro h0
      have hh := hstats k
      rw [h0] at hh
      simp only [Option.map_none'] at hh
      exact Option.map_eq_none'.mp hh.symm
    · intro h0
      have hh := hstats k
      rw [h0] at hh
      simp only [Option.map_none'] at hh
      exact Option.map_eq_none'.mp hh
  have hkeys : ((aggregate l).map Prod.fst).toFinset =
      ((aggregate l').map Prod.fst).toFinset := by
    ext k
    simp only [List.mem_toFinset]
    constructor
    · intro hmem
      by_contra hno
      have h0 : lookupB (aggregate l') k = none :=
        (lookupB_eq_none_iff _ _).mpr hno
      have h1 : lookupB (aggregate l) k = none := (hnone k).mpr h0
      exact (lookupB_eq_none_iff _ _).mp h1 hmem
    · intro hmem
      by_contra hno
      have h0 : lookupB (aggregate l) k = none :=
        (lookupB_eq_none_iff _ _).mpr hno
      have h1 : lookupB (aggregate l') k = none := (hnone k).mp h0
      exact (lookupB_eq_none_iff _ _).mp h1 hmem
  exact ⟨hkeys, hstats, fun k b h => examples_eq_take5 l k b h,
    fun k b h => examples_eq_take5 l' k b h⟩

theorem c8_perm_invariance_witness :
    ((aggregate [wSev1, wSev3]).map Prod.fst).toFinset =
      ((aggregate [wSev3, wSev1]).map Prod.fst).toFinset
    ∧ (∀ k, (lookupB (aggregate [wSev1, wSev3]) k).map statsOf =
        (lookupB (aggregate [wSev3, wSev1]) k).map statsOf)
    ∧ (∀ k b, lookupB (aggregate [wSev1, wSev3]) k = some b →
        b.examples = ((contrib [wSev1, wSev3] k).map pairOf).take 5)
    ∧ (∀ k b, lookupB (aggregate [wSev3, wSev1]) k = some b →
        b.examples = ((contrib [wSev3, wSev1] k).map pairOf).take 5) :=
  c8_perm_invariance [wSev1, wSev3] [wSev3, wSev1] (by decide)

/-- C3: a batch whose retried service call fails on all 6 attempts (the
waits between attempts following the exponential schedule with initial
delay 1, doubling, capped at 20) leaves an error-log entry naming its
index range, contributes zero results, and leaves every other batch with
exactly the contribution it has in a run where that batch succeeds. -/
theorem c3_failed_batch_skipped {α : Type _} (z : Int) (rows : List α)
    (svc svc' : Nat → List α → Nat → Except String (List AnalysisResult))
    (i : Nat) (res : List AnalysisResult)
    (hi : i ∈ batchStarts z rows.length)
    (hfail : ∀ n, 1 ≤ n → n ≤ 6 →
      ∃ e, svc i ((rows.drop i).take (effBs z)) n = Except.error e)
    (hsucc : batchOutcome z rows svc' i = Except.ok res)
    (hagree : ∀ j, j ≠ i → svc' j = svc j) :
    (∃ e, (i, i + effBs z, e) ∈ (extractAll z rows svc).2)
    ∧ (extractAll z rows svc).1 =
        ((batchStarts z rows.length).map
          (fun j => if j = i then [] else batchContrib z rows svc' j)).flatten
    ∧ (extractAll z rows svc').1 =
        ((batchStarts z rows.length).map
          (fun j => if j = i then res else batchContrib z rows svc' j)).flatten
    ∧ backoffWait 1 = 1
    ∧ (∀ n, backoffWait n ≤ 20)
    ∧ (∀ n, 1 ≤ n → backoffWait (n + 1) = min 20 (2 * backoffWait n)) := by
  have hout : ∃ e, batchOutcome z rows svc i = Except.error e := by
    have hr : retryFrom (svc i ((rows.drop i).take (effBs z))) 1 5 =
        svc i ((rows.drop i).take (effBs z)) (1 + 5) :=
      retryFrom_allFail _ 5 1 (fun m hm1 hm2 => hfail m hm1 (by omega))
    obtain ⟨e, he⟩ := hfail 6 (by omega) (le_refl 6)
    refine ⟨e, ?_⟩
    rw [batchOutcome, analyze_batch_with_openai, hr]
    exact he
  obtain ⟨e0, he0⟩ := hout
  have hcontrib0 : batchContrib z rows svc i = [] := by
    simp [batchContrib, he0, Except.toOption]
  have hagreeContrib : ∀ j, j ≠ i →
      batchContrib z rows svc j = batchContrib z rows svc' j := by
    intro j hj
    simp only [batchContrib, batchOutcome, ← hagree j hj]
  refine ⟨?_, ?_, ?_, ?_, fun n => min_le_left _ _, ?_⟩
  · refine ⟨e0, ?_⟩
    rw [extractAll_snd]
    exact List.mem_filterMap.mpr ⟨i, hi, by simp [batchErr, he0]⟩
  · rw [extractAll_fst]
    congr 1
    refine List.map_congr_left ?_
    intro j _
    by_cases hji : j = i
    · subst hji
      simp [hcontrib0]
    · simp [hji, hagreeContrib j hji]
  · rw [extractAll_fst]
    congr 1
    refine List.map_congr_left ?_
    intro j _
    by_cases hji : j = i
    · subst hji
      simp [batchContrib, hsucc, Except.toOption]
    · simp [hji]
  · norm_num [backoffWait]
  · intro n hn
    obtain ⟨m, rfl⟩ : ∃ m, n = m + 1 := ⟨n - 1, by omega⟩
    simp only [backoffWait, Nat.add_sub_cancel]
    have h1 : (1 : ℚ) ≤ 2 ^ m := one_le_pow₀ (by norm_num)
    have h2 : (1 : ℚ) ≤ 2 ^ (m + 1) := one_le_pow₀ (by norm_num)
    rw [max_eq_right h1, max_eq_right h2]
    rcases le_total ((2 : ℚ) ^ m) 20 with hle | hge
    · rw [min_eq_right hle, pow_succ, mul_comm ((2 : ℚ) ^ m) 2]
    · rw [min_eq_left hge]
      have h20 : (20 : ℚ) ≤ 2 ^ (m + 1) := by
        rw [pow_succ]
        nlinarith [hge]
      rw [min_eq_left h20, min_eq_left (by norm_num : (20 : ℚ) ≤ 2 * 20)]

theorem c3_failed_batch_skipped_witness :
    (∃ e, (0, 0 + effBs 2, e) ∈ (extractAll 2 [1, 2, 3] wSvcFail).2)
    ∧ (extractAll 2 [1, 2, 3] wSvcFail).1 =
        ((batchStarts 2 ([1, 2, 3] : List Nat).length).map
          (fun j => if j = 0 then []
            else batchContrib 2 [1, 2, 3] wSvcOk j)).flatten
    ∧ (extractAll 2 [1, 2, 3] wSvcOk).1 =
        ((batchStarts 2 ([1, 2, 3] : List Nat).length).map
          (fun j => if j = 0 then [wSev1]
            else batchContrib 2 [1, 2, 3] wSvcOk j)).flatten
    ∧ backoffWait 1 = 1
    ∧ (∀ n, backoffWait n ≤ 20)
    ∧ (∀ n, 1 ≤ n → backoffWait (n + 1) = min 20 (2 * backoffWait n)) :=
  c3_failed_batch_skipped 2 [1, 2, 3] wSvcFail wSvcOk 0 [wSev1]
    (by decide)
    (fun n _ _ => ⟨"boom", rfl⟩)
    (by rfl)
    (fun j hj => by
      funext b n
      simp [wSvcOk, hj])

theorem c9_md_empty_header_witness :
    _write_per_post_md [] 50 = [mdHeaderLine, mdSepLine] :=
  c9_md_empty_header 50

theorem c10_effective_batch_size_witness :
    1 ≤ effBs (-3)
    ∧ ((-3 : Int) ≤ 0 → effBs (-3) = 1)
    ∧ (pyBatches (effBs (-3)) [10, 20]).flatten = [10, 20]
    ∧ batchStarts (-3) ([10, 20] : List Nat).length =
        List.range' 0 ((([10, 20] : List Nat).length + effBs (-3) - 1) / effBs (-3))
          (effBs (-3)) :=
  c10_effective_batch_size (-3) [10, 20]
